import Mathlib

/-!
# Verification of the lyrics timing-alignment core of MusicGenerationTool

Shallow embedding of `src/video_creation.py`:
`parse_lyrics_timing`, `wrap_text_intelligently`, `fix_double_utf8_encoding`.

Python strings are modelled as lists of Unicode code points (`List Nat`);
Python floats are modelled as exact rationals (`ℚ`) — the algorithms only
add, subtract and compare times, and every claim under study is about
that exact arithmetic, not about binary rounding.
-/

set_option allowUnsafeReducibility true in
attribute [semireducible] Rat.add Rat.sub Rat.mul Rat.inv Rat.ofScientific

namespace MusicGen

/-- Code points of a string literal (ASCII/Unicode), for concrete inputs. -/
def strC (s : String) : List Nat := s.data.map Char.toNat

/-- Whitespace code points recognised by Python's `str.strip()` / `str.split()`
(`str.isspace`): ASCII whitespace, the C0 separators, and the Unicode spaces. -/
def pyIsSpace (c : Nat) : Bool :=
  c ∈ [9, 10, 11, 12, 13, 28, 29, 30, 31, 32, 133, 160, 0x1680,
       0x2000, 0x2001, 0x2002, 0x2003, 0x2004, 0x2005, 0x2006, 0x2007,
       0x2008, 0x2009, 0x200A, 0x2028, 0x2029, 0x202F, 0x205F, 0x3000]

/-- Python `str.strip()`: drop whitespace from both ends. -/
def pyStrip (s : List Nat) : List Nat :=
  ((s.dropWhile pyIsSpace).reverse.dropWhile pyIsSpace).reverse

/-- Python `str.lower()` on the code-point ranges the repository's data uses
(ASCII `A`–`Z` and Latin-1 `À`–`Þ` except `×`); other code points unchanged. -/
def pyLower (s : List Nat) : List Nat :=
  s.map (fun c =>
    if 0x41 ≤ c ∧ c ≤ 0x5A then c + 0x20
    else if 0xC0 ≤ c ∧ c ≤ 0xDE ∧ c ≠ 0xD7 then c + 0x20
    else c)

/-- Python `str.strip('.,!?;:')`: drop those punctuation marks from both ends. -/
def pyStripPunct (s : List Nat) : List Nat :=
  let punct : Nat → Bool := fun c => c ∈ [46, 44, 33, 63, 59, 58]
  ((s.dropWhile punct).reverse.dropWhile punct).reverse

/-- Python `word.replace('\n', ' ')` (both sides single code points). -/
def pyReplaceNl (s : List Nat) : List Nat :=
  s.map (fun c => if c = 10 then 32 else c)

/-- Accumulator loop behind `pySplit`: current (reversed) word in `acc`. -/
def splitAux : List Nat → List Nat → List (List Nat)
  | [], acc => if acc = [] then [] else [acc.reverse]
  | c :: rest, acc =>
    if pyIsSpace c then
      if acc = [] then splitAux rest [] else acc.reverse :: splitAux rest []
    else splitAux rest (c :: acc)

/-- Python `str.split()` (no argument): split on whitespace runs,
dropping empty pieces. -/
def pySplit (s : List Nat) : List (List Nat) := splitAux s []

/-- Python `' '.join(words)`. -/
def pyJoin : List (List Nat) → List Nat
  | [] => []
  | [w] => w
  | w :: ws => w ++ 32 :: pyJoin ws

/-- Python `needle in hay` on strings (substring test; `'' in s` is true). -/
def pyContains (needle : List Nat) : List Nat → Bool
  | [] => needle.isEmpty
  | c :: rest => needle.isPrefixOf (c :: rest) || pyContains needle rest

/-- Python `s.split('\n')` (keeps empty pieces). -/
def pySplitLines (s : List Nat) : List (List Nat) := s.splitOn 10

/-! ## Data model of `parse_lyrics_timing`'s inputs and outputs -/

/-- One record of `data.alignedWords` in the API response; every field may be
absent (`dict.get` with a default in the source). Field types follow the
declared interface (`{word: string, startS: number, endS: number,
success: boolean}`). -/
structure AlignedWord where
  word : Option (List Nat) := none
  startS : Option ℚ := none
  endS : Option ℚ := none
  success : Option Bool := none
deriving DecidableEq

/-- The `data` object of the API response. -/
structure LyricsPayload where
  alignedWords : Option (List AlignedWord) := none
  lyrics : Option (List Nat) := none
deriving DecidableEq

/-- The whole API response (`lyrics_data`); `data` may be null/absent. -/
structure LyricsData where
  data : Option LyricsPayload := none
  msg : Option (List Nat) := none
deriving DecidableEq

/-- One entry of `clean_words`: the dict
`{'word': word_text, 'start': float(start_s), 'end': float(end_s)}`. -/
structure Token where
  word : List Nat
  start : ℚ
  stop : ℚ
deriving DecidableEq

/-- One output tuple `(start_time, end_time, text_line)`. -/
structure Segment where
  start : ℚ
  stop : ℚ
  text : List Nat
deriving DecidableEq

/-- The `structural_markers` list of the source. -/
def structuralMarkers : List (List Nat) :=
  [strC "intro", strC "couplet", strC "verse", strC "chorus", strC "refrain",
   strC "bridge", strC "outro", strC "pre-chorus", strC "post-chorus",
   strC "interlude"]

/-- `any(word_lower.startswith(marker) or word_lower == marker ...)`
(the check used on words and on main-path lines). -/
def isStructural (s : List Nat) : Bool :=
  structuralMarkers.any (fun m => m.isPrefixOf s || s == m)

/-- `any(line_lower.startswith(marker) ...)` — the check used on lines in the
top-level no-data fallback (prefix only, no equality clause). -/
def isStructuralPrefixOnly (s : List Nat) : Bool :=
  structuralMarkers.any (fun m => m.isPrefixOf s)

/-! ## The word-filtering pass building `clean_words` -/

/-- The body of the `for word_data in aligned_words` loop: `none` when the
record is skipped (`continue`), `some tok` when it is appended. -/
def cleanWord (w : AlignedWord) : Option Token :=
  if (w.success.getD true) = false then none
  else
    let t0 := pyStrip (w.word.getD [])
    if t0 = [] then none
    else
      let t := pyStrip (pyReplaceNl t0)
      let wl := pyStrip (pyLower t)
      if isStructural wl then none
      else if t.length > 0 then some ⟨t, w.startS.getD 0, w.endS.getD 0⟩
      else none

/-! ## Line filtering -/

/-- The main-path loop over `original_lyrics.split('\n')`: strip, drop blanks,
drop structural markers (prefix-or-equal check), keep lines of length > 3. -/
def filterLinesMain (text : List Nat) : List (List Nat) :=
  (pySplitLines text).filterMap (fun l0 =>
    let l := pyStrip l0
    if l = [] then none
    else if isStructural (pyLower l) then none
    else if l.length > 3 then some l
    else none)

/-- The no-data fallback's line extraction:
`[line.strip() for line in original_lyrics.split('\n') if line.strip()]`
then drop structural lines (prefix-only check on `line.lower().strip()`)
and keep lines with `len(line.strip()) > 3`. -/
def filterLinesFallback (text : List Nat) : List (List Nat) :=
  let lines := (pySplitLines text).filterMap (fun l0 =>
    let l := pyStrip l0
    if l = [] then none else some l)
  lines.filterMap (fun line =>
    if isStructuralPrefixOnly (pyStrip (pyLower line)) then none
    else if (pyStrip line).length > 3 then some (pyStrip line)
    else none)

/-! ## The word-to-line aligner -/

/-- The inner `while` scan of one line. The caller passes the suffix
`clean_words[temp:]` explicitly together with the numeric index `temp`
(starting at the global cursor `startIdx`); `matched` counts accepted
tokens and `acc` holds the accepted `(index, token)` pairs in order.
A token is accepted iff some still-unmatched target word `lw` satisfies
`word_text in lw or lw in word_text or word_text == lw`; the scan stops
when the token stream or the target words run out, or right after the
runaway guard `temp - startIdx > 3 * len(target words)` fires. -/
def scanAux (lwt : List (List Nat)) (startIdx : Nat) :
    List Token → Nat → Nat → List (Nat × Token) → List (Nat × Token) × Nat
  | [], temp, _, acc => (acc, temp)
  | tok :: rest, temp, matched, acc =>
    if matched < lwt.length then
      let wt := pyStripPunct (pyLower tok.word)
      let hit := (lwt.drop matched).any
        (fun lw => pyContains wt lw || pyContains lw wt || wt == lw)
      let acc' := if hit then acc ++ [(temp, tok)] else acc
      let matched' := if hit then matched + 1 else matched
      if temp + 1 - startIdx > lwt.length * 3 then (acc', temp + 1)
      else scanAux lwt startIdx rest (temp + 1) matched' acc'
    else (acc, temp)

/-- The per-line scan, starting at the global cursor. -/
def scanLine (clean : List Token) (lwt : List (List Nat)) (cursor : Nat) :
    List (Nat × Token) × Nat :=
  scanAux lwt cursor (clean.drop cursor) cursor 0 []

/-- Segment construction for one line (`if line_words: ... else: ...`):
matched timing padded to the 2-second minimum, or the estimated slot of
3 seconds from the previous segment's end (`line_idx * 3` on the first
line, where the segment list is still empty). -/
def mkSegment (lineWords : List (Nat × Token)) (lineIdx : Nat)
    (prevEnd : Option ℚ) (lineText : List Nat) : Segment :=
  match lineWords with
  | [] =>
    let st : ℚ := match prevEnd with
      | some e => e
      | none => (lineIdx : ℚ) * 3
    ⟨st, st + 3, lineText⟩
  | w :: ws =>
    let st := w.2.start
    let en := (ws.getLastD w).2.stop
    ⟨st, if en - st < 2 then st + 2 else en, lineText⟩

/-- One iteration of the `for line_idx, line_text in enumerate(lyrics_lines)`
loop: scan, acceptance test (`len(line_words) < len(line_words_text) * 0.3`,
stated exactly as `10 * matched < 3 * targets`), fallback sequential
distribution (`words_per_line` from the TOTAL counts), and segment emission.
Returns the assigned `(index, token)` pairs, the segment, and the new cursor. -/
def lineStep (clean : List Token) (total : Nat) (lineIdx cursor : Nat)
    (lineText : List Nat) (prevEnd : Option ℚ) :
    List (Nat × Token) × Segment × Nat :=
  let lwt := pySplit (pyLower lineText)
  let scanned := scanLine clean lwt cursor
  let pairs := scanned.1
  let temp := scanned.2
  if pairs.length * 10 < lwt.length * 3 then
    let wpl := max 1 (clean.length / total)
    let rem := clean.length % total
    let wftl := wpl + (if lineIdx < rem then 1 else 0)
    let lineWords := (List.range' cursor wftl).zip ((clean.drop cursor).take wftl)
    (lineWords, mkSegment lineWords lineIdx prevEnd lineText, cursor + wftl)
  else
    (pairs, mkSegment pairs lineIdx prevEnd lineText, temp)

/-- The whole matching loop, one entry per line: the assigned index/token
pairs and the emitted segment. `total` is `len(lyrics_lines)`. -/
def alignCore (clean : List Token) (total : Nat) :
    List (List Nat) → Nat → Nat → Option ℚ → List (List (Nat × Token) × Segment)
  | [], _, _, _ => []
  | line :: rest, lineIdx, cursor, prevEnd =>
    let step := lineStep clean total lineIdx cursor line prevEnd
    (step.1, step.2.1) ::
      alignCore clean total rest (lineIdx + 1) step.2.2 (some step.2.1.stop)

/-! ## `parse_lyrics_timing` -/

/-- The top-level fallback when the response has no `data`: synthetic
3-second slots over the filtered original lyric lines, empty otherwise. -/
def noDataFallback (ol : Option (List Nat)) : List Segment :=
  match ol with
  | none => []
  | some s =>
    if s = [] then []
    else
      let lines := filterLinesFallback s
      (lines.enum).map (fun p => ⟨(p.1 : ℚ) * 3, ((p.1 : ℚ) + 1) * 3, p.2⟩)

/-- `parse_lyrics_timing(lyrics_data, original_lyrics)`. The surrounding
`try/except` never fires in this embedding (every operation is total), so the
body is translated directly. -/
def parse_lyrics_timing (ld : Option LyricsData) (ol : Option (List Nat)) :
    List Segment :=
  match ld with
  | none => noDataFallback ol
  | some d =>
    match d.data with
    | none => noDataFallback ol
    | some payload =>
      let aligned := payload.alignedWords.getD []
      if aligned = [] then []
      else
        let clean := aligned.filterMap cleanWord
        if clean = [] then []
        else
          let lyrics := match ol with
            | some s => if s = [] then payload.lyrics.getD [] else s
            | none => payload.lyrics.getD []
          if lyrics = [] then []
          else
            let lines := filterLinesMain lyrics
            if lines = [] then []
            else (alignCore clean lines.length lines 0 0 none).map (·.2)

/-- The lyric lines the output segments should correspond to, per input
shape: the fallback filter over the caller's lyrics when the response has no
`data`, otherwise the main filter over the effective lyrics source (caller's
text if truthy, else `data.lyrics`). -/
def effLines (ld : Option LyricsData) (ol : Option (List Nat)) :
    List (List Nat) :=
  match ld with
  | none => filterLinesFallback (ol.getD [])
  | some d =>
    match d.data with
    | none => filterLinesFallback (ol.getD [])
    | some payload =>
      let lyrics := match ol with
        | some s => if s = [] then payload.lyrics.getD [] else s
        | none => payload.lyrics.getD []
      filterLinesMain lyrics

/-! ## Concrete inputs used by witnesses and counterexamples -/

/-- Scenario A's aligned words: `[("Hello",0,0.5), ("world",0.5,1.0),
("Goodbye",1.0,1.6), ("now",1.6,2.0)]`. -/
def scenAWords : List AlignedWord :=
  [⟨some (strC "Hello"), some 0, some (1/2), none⟩,
   ⟨some (strC "world"), some (1/2), some 1, none⟩,
   ⟨some (strC "Goodbye"), some 1, some (8/5), none⟩,
   ⟨some (strC "now"), some (8/5), some 2, none⟩]

/-- Scenario A's API response. -/
def scenAInput : Option LyricsData := some ⟨some ⟨some scenAWords, none⟩, none⟩

/-- Scenario A's original lyrics. -/
def scenAOl : Option (List Nat) := some (strC "Hello world\nGoodbye now")

/-- A six-token input whose second line has no textual overlap with any
remaining token, exercising the low-confidence fallback distribution. -/
def lowConfWords : List AlignedWord :=
  [⟨some (strC "aa"), some 0, some (1/2), none⟩,
   ⟨some (strC "bb"), some (1/2), some 1, none⟩,
   ⟨some (strC "ee"), some 1, some 2, none⟩,
   ⟨some (strC "ff"), some 2, some 3, none⟩,
   ⟨some (strC "gg"), some 3, some 4, none⟩,
   ⟨some (strC "hh"), some 4, some 5, none⟩]

/-- The cleaned tokens of `lowConfWords` (all six survive filtering). -/
def lowConfClean : List Token := lowConfWords.filterMap cleanWord

/-- Two lyric lines: the first matches tokens 0–1, the second matches
nothing. -/
def lowConfLines : List (List Nat) := [strC "aa bb", strC "pp qq"]

/-! ## `wrap_text_intelligently` -/

/-- The split-point search loop: accumulate each word's length plus a
separating space (`+1` for every word after the first) and stop at the first
word index where the running length reaches the character midpoint; `none`
when the loop never breaks (then the caller keeps `len(words) // 2`). -/
def findSplit : List (List Nat) → Nat → Nat → Nat → Option Nat
  | [], _, _, _ => none
  | w :: ws, i, cur, mid =>
    let cur' := cur + w.length + (if i > 0 then 1 else 0)
    if cur' ≥ mid then some i else findSplit ws (i + 1) cur' mid

/-- `wrap_text_intelligently(text, max_chars_per_line)`. -/
def wrap_text_intelligently (text : List Nat) (maxChars : Nat) :
    List (List Nat) :=
  if text.length ≤ maxChars then [text]
  else
    let words := pySplit text
    if words.length ≤ 1 then [text.take maxChars, text.drop maxChars]
    else
      let mid := text.length / 2
      let bs0 := (findSplit words 0 0 mid).getD (words.length / 2)
      let line2a := pyJoin (words.drop bs0)
      let bs := if line2a.length > maxChars ∧ bs0 > 1 then bs0 - 1 else bs0
      let line1 := pyJoin (words.take bs)
      let line2 := pyJoin (words.drop bs)
      if line2 = [] then [line1] else [line1, line2]

/-! ## `fix_double_utf8_encoding` -/

/-- Python `text.encode('latin-1')`: each code point ≤ `0xFF` becomes that
byte; any larger code point raises `UnicodeEncodeError` (`none` here). -/
def latin1Encode (s : List Nat) : Option (List Nat) :=
  if s.all (fun c => c ≤ 0xFF) then some s else none

/-- A UTF-8 continuation byte. -/
def isCont (c : Nat) : Bool := 0x80 ≤ c && c ≤ 0xBF

/-- Valid first continuation byte after a 3-byte lead (rejects overlong
encodings after `0xE0` and surrogates after `0xED`). -/
def validE (b c : Nat) : Bool :=
  if b = 0xE0 then 0xA0 ≤ c && c ≤ 0xBF
  else if b = 0xED then 0x80 ≤ c && c ≤ 0x9F
  else isCont c

/-- Valid first continuation byte after a 4-byte lead (rejects overlong
encodings after `0xF0` and code points above `U+10FFFF` after `0xF4`). -/
def validF (b c : Nat) : Bool :=
  if b = 0xF0 then 0x90 ≤ c && c ≤ 0xBF
  else if b = 0xF4 then 0x80 ≤ c && c ≤ 0x8F
  else isCont c

/-- Python `bytes.decode('utf-8')` (strict): `none` models
`UnicodeDecodeError`. -/
def utf8Decode : List Nat → Option (List Nat)
  | [] => some []
  | b :: rest =>
    if b ≤ 0x7F then (utf8Decode rest).map (fun t => b :: t)
    else
      match rest with
      | [] => none
      | c1 :: rest1 =>
        if 0xC2 ≤ b ∧ b ≤ 0xDF then
          if isCont c1 then
            (utf8Decode rest1).map
              (fun t => ((b - 0xC0) * 0x40 + (c1 - 0x80)) :: t)
          else none
        else
          match rest1 with
          | [] => none
          | c2 :: rest2 =>
            if 0xE0 ≤ b ∧ b ≤ 0xEF then
              if validE b c1 && isCont c2 then
                (utf8Decode rest2).map (fun t =>
                  ((b - 0xE0) * 0x1000 + (c1 - 0x80) * 0x40 + (c2 - 0x80)) :: t)
              else none
            else
              match rest2 with
              | [] => none
              | c3 :: rest3 =>
                if 0xF0 ≤ b ∧ b ≤ 0xF4 then
                  if validF b c1 && isCont c2 && isCont c3 then
                    (utf8Decode rest3).map (fun t =>
                      ((b - 0xF0) * 0x40000 + (c1 - 0x80) * 0x1000 +
                        (c2 - 0x80) * 0x40 + (c3 - 0x80)) :: t)
                  else none
                else none

/-- Python `str.replace(old, new)` for nonempty `old` (all the `fixes` keys
are two characters): leftmost, non-overlapping. -/
def replaceAll (needle repl : List Nat) : List Nat → List Nat
  | [] => []
  | c :: rest =>
    if needle ≠ [] ∧ needle.isPrefixOf (c :: rest) then
      repl ++ replaceAll needle repl (rest.drop (needle.length - 1))
    else c :: replaceAll needle repl rest
termination_by l => l.length
decreasing_by
  · simp only [List.length_cons, List.length_drop]; omega
  · simp only [List.length_cons]; omega

/-- The `fixes` table, in the source's order, as code points. Each key is the
two-character mojibake form (`Ã` then the second character Windows-1252
assigns to the byte), each value the intended single character: for instance
the pair rendered `'Ã¡': 'á'` is `([0xC3, 0xA1], [0xE1])`, and the last three
keys pair `Ã` with `…` (U+2026), `†` (U+2020) and `˜` (U+02DC). -/
def encodingFixes : List (List Nat × List Nat) :=
  [([0xC3, 0xA1], [0xE1]), ([0xC3, 0xA9], [0xE9]), ([0xC3, 0xAD], [0xED]),
   ([0xC3, 0xB3], [0xF3]), ([0xC3, 0xBA], [0xFA]),
   ([0xC3, 0x20], [0xE0]), ([0xC3, 0xA8], [0xE8]), ([0xC3, 0xAC], [0xEC]),
   ([0xC3, 0xB2], [0xF2]), ([0xC3, 0xB9], [0xF9]),
   ([0xC3, 0xA2], [0xE2]), ([0xC3, 0xAA], [0xEA]), ([0xC3, 0xAE], [0xEE]),
   ([0xC3, 0xB4], [0xF4]), ([0xC3, 0xBB], [0xFB]),
   ([0xC3, 0xA3], [0xE3]), ([0xC3, 0xB1], [0xF1]), ([0xC3, 0xA7], [0xE7]),
   ([0xC3, 0xA4], [0xE4]), ([0xC3, 0xB6], [0xF6]),
   ([0xC3, 0xBC], [0xFC]), ([0xC3, 0xBF], [0xFF]), ([0xC3, 0x2026], [0xC5]),
   ([0xC3, 0x2020], [0xC6]), ([0xC3, 0x2DC], [0xD8])]

/-- The alternative branch: apply each table entry with `str.replace`,
in order, each over the previous result. -/
def applyFixes (s : List Nat) : List Nat :=
  encodingFixes.foldl (fun acc kv => replaceAll kv.1 kv.2 acc) s

/-- `fix_double_utf8_encoding(text)` for a string argument: empty strings are
returned as-is (`if not text`); otherwise one latin-1 encode / UTF-8 decode
pass, falling back to the replacement table when either step raises, and the
table pass itself cannot raise, so the final `except` arm is dead code. -/
def fix_double_utf8_encoding (s : List Nat) : List Nat :=
  if s = [] then s
  else
    match latin1Encode s with
    | some bytes =>
      match utf8Decode bytes with
      | some t => t
      | none => applyFixes s
    | none => applyFixes s

/-! ## Dynamic-typing model of the normalizer's exception behaviour

`fix_double_utf8_encoding` annotates its parameter as `str`, but claims also
quantify over ill-typed arguments. The model below captures CPython's
behaviour on one non-string value class: a falsy argument is returned
unchanged by the `if not text` guard; a string goes through the pure model
above (whose two string methods only raise `UnicodeEncodeError` /
`UnicodeDecodeError`, both caught); any truthy non-string value has no
`.encode` attribute, and the resulting `AttributeError` is not caught by the
`except (UnicodeEncodeError, UnicodeDecodeError)` clause, so it escapes. -/

/-- Python exception kinds relevant to the normalizer. -/
inductive PyExc where
  | attributeError
deriving DecidableEq

/-- A small universe of Python values the normalizer may receive. -/
inductive PyVal where
  | pynone
  | pyint (n : Int)
  | pystr (s : List Nat)
deriving DecidableEq

/-- Python truthiness on `PyVal`. -/
def PyVal.truthy : PyVal → Bool
  | .pynone => false
  | .pyint n => n ≠ 0
  | .pystr s => s ≠ []

/-- `fix_double_utf8_encoding` on a dynamically-typed argument. -/
def fixDoubleUtf8Dyn : PyVal → Except PyExc PyVal
  | .pynone => .ok .pynone
  | .pyint n => if n = 0 then .ok (.pyint 0) else .error .attributeError
  | .pystr s => .ok (.pystr (fix_double_utf8_encoding s))

/-! # Theorems -/

/-! ## Helper lemmas about the aligner -/

theorem mkSegment_text (lw : List (Nat × Token)) (li : Nat) (pe : Option ℚ)
    (t : List Nat) : (mkSegment lw li pe t).text = t := by
  cases lw <;> rfl

theorem mkSegment_dur (lw : List (Nat × Token)) (li : Nat) (pe : Option ℚ)
    (t : List Nat) :
    2 ≤ (mkSegment lw li pe t).stop - (mkSegment lw li pe t).start := by
  cases lw with
  | nil =>
    simp only [mkSegment]
    have : ∀ st : ℚ, (2 : ℚ) ≤ st + 3 - st := by intro st; linarith
    exact this _
  | cons w ws =>
    simp only [mkSegment]
    split
    · linarith
    · linarith

theorem lineStep_text (clean : List Token) (total li cursor : Nat)
    (line : List Nat) (pe : Option ℚ) :
    (lineStep clean total li cursor line pe).2.1.text = line := by
  simp only [lineStep]
  split <;> exact mkSegment_text ..

theorem lineStep_dur (clean : List Token) (total li cursor : Nat)
    (line : List Nat) (pe : Option ℚ) :
    2 ≤ (lineStep clean total li cursor line pe).2.1.stop -
      (lineStep clean total li cursor line pe).2.1.start := by
  simp only [lineStep]
  split <;> exact mkSegment_dur ..

theorem alignCore_map_text (clean : List Token) (total : Nat) :
    ∀ (lines : List (List Nat)) (li cursor : Nat) (pe : Option ℚ),
    (alignCore clean total lines li cursor pe).map (fun e => e.2.text) =
      lines := by
  intro lines
  induction lines with
  | nil => intro li cursor pe; rfl
  | cons line rest ih =>
    intro li cursor pe
    simp only [alignCore, List.map_cons, ih, lineStep_text]

theorem alignCore_dur (clean : List Token) (total : Nat) :
    ∀ (lines : List (List Nat)) (li cursor : Nat) (pe : Option ℚ)
      (e : List (Nat × Token) × Segment),
    e ∈ alignCore clean total lines li cursor pe →
    2 ≤ e.2.stop - e.2.start := by
  intro lines
  induction lines with
  | nil => intro li cursor pe e h; cases h
  | cons line rest ih =>
    intro li cursor pe e h
    simp only [alignCore, List.mem_cons] at h
    rcases h with h | h
    · subst h; exact lineStep_dur ..
    · exact ih _ _ _ _ h

theorem noDataFallback_dur (ol : Option (List Nat)) (seg : Segment)
    (h : seg ∈ noDataFallback ol) : 2 ≤ seg.stop - seg.start := by
  match ol with
  | none => cases h
  | some s =>
    simp only [noDataFallback] at h
    split at h
    · cases h
    · simp only [List.mem_map] at h
      obtain ⟨p, _, rfl⟩ := h
      have : ((p.1 : ℚ) + 1) * 3 - (p.1 : ℚ) * 3 = 3 := by ring
      simp only [this]
      norm_num

theorem noDataFallback_map_text (ol : Option (List Nat)) :
    (noDataFallback ol).map Segment.text = filterLinesFallback (ol.getD []) := by
  match ol with
  | none => decide
  | some s =>
    simp only [noDataFallback, Option.getD_some]
    split
    · subst s; decide
    · simp only [List.map_map]
      exact List.enum_map_snd _

/-- C1: whenever `parse_lyrics_timing` returns a non-empty result, the output
segments correspond one-to-one and in order with the filtered lyric lines of
the effective lyrics source: segment `i`'s text is the `i`-th surviving line's
text verbatim, whichever tokens matched. -/
theorem orderPreservation (ld : Option LyricsData) (ol : Option (List Nat))
    (h : parse_lyrics_timing ld ol ≠ []) :
    (parse_lyrics_timing ld ol).map Segment.text = effLines ld ol := by
  match ld with
  | none => exact noDataFallback_map_text ol
  | some d =>
    obtain ⟨data, msg⟩ := d
    match data with
    | none => exact noDataFallback_map_text ol
    | some payload =>
      simp only [parse_lyrics_timing] at h ⊢
      simp only [effLines]
      split at h
      next => exact absurd rfl h
      next hc1 =>
        rw [if_neg hc1]
        split at h
        next => exact absurd rfl h
        next hc2 =>
          rw [if_neg hc2]
          split at h
          next => exact absurd rfl h
          next hc3 =>
            rw [if_neg hc3]
            split at h
            next => exact absurd rfl h
            next hl =>
              rw [if_neg hl]
              simp only [List.map_map]
              exact alignCore_map_text ..

/-- Witness for C1 at Scenario A's input. -/
theorem orderPreservation_witness :
    parse_lyrics_timing scenAInput scenAOl ≠ [] ∧
      (parse_lyrics_timing scenAInput scenAOl).map Segment.text =
        effLines scenAInput scenAOl :=
  ⟨by decide, orderPreservation scenAInput scenAOl (by decide)⟩

/-- C2: every segment emitted by `parse_lyrics_timing` — matched timing,
per-line fallback distribution, per-line estimated timing, or top-level
no-data fallback — lasts at least 2 seconds. -/
theorem minDurationAll (ld : Option LyricsData) (ol : Option (List Nat))
    (seg : Segment) (h : seg ∈ parse_lyrics_timing ld ol) :
    2 ≤ seg.stop - seg.start := by
  match ld with
  | none => exact noDataFallback_dur ol seg h
  | some d =>
    obtain ⟨data, msg⟩ := d
    match data with
    | none => exact noDataFallback_dur ol seg h
    | some payload =>
      simp only [parse_lyrics_timing] at h
      split at h
      next => cases h
      next =>
        split at h
        next => cases h
        next =>
          split at h
          next => cases h
          next =>
            split at h
            next => cases h
            next =>
              simp only [List.mem_map] at h
              obtain ⟨e, he, rfl⟩ := h
              exact alignCore_dur _ _ _ _ _ _ _ he

/-- Witness for C2 at Scenario A's input. -/
theorem minDurationAll_witness :
    (⟨0, 2, strC "Hello world"⟩ : Segment) ∈
        parse_lyrics_timing scenAInput scenAOl ∧
      2 ≤ (Segment.mk 0 2 (strC "Hello world")).stop -
        (Segment.mk 0 2 (strC "Hello world")).start :=
  ⟨by decide, minDurationAll scenAInput scenAOl _ (by decide)⟩

theorem scanAux_spec (lwt : List (List Nat)) (startIdx : Nat) :
    ∀ (rest : List Token) (temp matched : Nat) (acc : List (Nat × Token)),
    startIdx ≤ temp → (∀ p ∈ acc, startIdx ≤ p.1 ∧ p.1 < temp) →
    temp ≤ (scanAux lwt startIdx rest temp matched acc).2 ∧
      ∀ p ∈ (scanAux lwt startIdx rest temp matched acc).1,
        startIdx ≤ p.1 ∧ p.1 < (scanAux lwt startIdx rest temp matched acc).2 := by
  intro rest
  induction rest with
  | nil =>
    intro temp matched acc hst hacc
    exact ⟨Nat.le_refl _, hacc⟩
  | cons tok rest ih =>
    intro temp matched acc hst hacc
    simp only [scanAux]
    split
    · have hacc' : ∀ p ∈ (if ((lwt.drop matched).any fun lw =>
          pyContains (pyStripPunct (pyLower tok.word)) lw ||
            pyContains lw (pyStripPunct (pyLower tok.word)) ||
            pyStripPunct (pyLower tok.word) == lw) = true
          then acc ++ [(temp, tok)] else acc),
          startIdx ≤ p.1 ∧ p.1 < temp + 1 := by
        intro p hp
        split at hp
        · rcases List.mem_append.mp hp with hp | hp
          · have := hacc p hp
            omega
          · simp only [List.mem_singleton] at hp
            subst hp
            omega
        · have := hacc p hp
          omega
      split
      · exact ⟨Nat.le_succ _, hacc'⟩
      · refine ⟨?_, ?_⟩
        · exact Nat.le_trans (Nat.le_succ _)
            (ih (temp + 1) _ _ (Nat.le_succ_of_le hst) hacc').1
        · exact (ih (temp + 1) _ _ (Nat.le_succ_of_le hst) hacc').2
    · exact ⟨Nat.le_refl _, hacc⟩

theorem lineStep_cursor (clean : List Token) (total li cursor : Nat)
    (line : List Nat) (pe : Option ℚ) :
    cursor ≤ (lineStep clean total li cursor line pe).2.2 ∧
      ∀ p ∈ (lineStep clean total li cursor line pe).1,
        cursor ≤ p.1 ∧ p.1 < (lineStep clean total li cursor line pe).2.2 := by
  simp only [lineStep]
  split
  · dsimp only
    constructor
    · exact Nat.le_add_right _ _
    · intro p hp
      have h1 : p.1 ∈ List.range' cursor
          (max 1 (clean.length / total) +
            if li < clean.length % total then 1 else 0) :=
        (List.of_mem_zip hp).1
      exact List.mem_range'_1.mp h1
  · have := scanAux_spec (pySplit (pyLower line)) cursor (clean.drop cursor)
      cursor 0 [] (Nat.le_refl _) (by intro p hp; cases hp)
    exact ⟨this.1, this.2⟩

theorem alignCore_idx_lb (clean : List Token) (total : Nat) :
    ∀ (lines : List (List Nat)) (li cursor : Nat) (pe : Option ℚ)
      (e : List (Nat × Token) × Segment),
    e ∈ alignCore clean total lines li cursor pe →
    ∀ p ∈ e.1, cursor ≤ p.1 := by
  intro lines
  induction lines with
  | nil => intro li cursor pe e h; cases h
  | cons line rest ih =>
    intro li cursor pe e h p hp
    simp only [alignCore, List.mem_cons] at h
    rcases h with h | h
    · subst h
      exact ((lineStep_cursor clean total li cursor line pe).2 p hp).1
    · have h1 := ih _ _ _ _ h p hp
      have h2 := (lineStep_cursor clean total li cursor line pe).1
      omega

/-- C3: the aligner never reuses a token: the global cursor never moves
backwards across lines, and the token indices assigned to distinct lines are
strictly increasing from one line to the next, so the per-line index ranges
are pairwise disjoint. -/
theorem alignerNoTokenReuse :
    (∀ (clean : List Token) (total li cursor : Nat) (line : List Nat)
        (pe : Option ℚ),
      cursor ≤ (lineStep clean total li cursor line pe).2.2) ∧
    ∀ (clean : List Token) (total : Nat) (lines : List (List Nat))
      (li cursor : Nat) (pe : Option ℚ),
      List.Pairwise (fun e f => ∀ p ∈ e.1, ∀ q ∈ f.1, p.1 < q.1)
        (alignCore clean total lines li cursor pe) := by
  constructor
  · intro clean total li cursor line pe
    exact (lineStep_cursor clean total li cursor line pe).1
  · intro clean total lines
    induction lines with
    | nil => intro li cursor pe; exact List.Pairwise.nil
    | cons line rest ih =>
      intro li cursor pe
      simp only [alignCore]
      constructor
      · intro f hf p hp q hq
        have h1 : p.1 < (lineStep clean total li cursor line pe).2.2 :=
          ((lineStep_cursor clean total li cursor line pe).2 p hp).2
        have h2 : (lineStep clean total li cursor line pe).2.2 ≤ q.1 :=
          alignCore_idx_lb clean total rest _ _ _ f hf q hq
        omega
      · exact ih _ _ _

/-- C4: the two top-level error cases are asymmetric. With no `data` (response
absent or `data` null) and non-empty original lyrics, the result is the
synthetic `(i*3, (i+1)*3, line_i)` sequence over the filtered lines; with
`data` present but `alignedWords` empty or absent, the result is empty even
when original lyrics are supplied. -/
theorem errorAsymmetry :
    (∀ (ld : Option LyricsData) (ol : List Nat),
      (ld = none ∨ ∃ d, ld = some d ∧ d.data = none) → ol ≠ [] →
      parse_lyrics_timing ld (some ol) =
        (filterLinesFallback ol).enum.map
          (fun p => ⟨(p.1 : ℚ) * 3, ((p.1 : ℚ) + 1) * 3, p.2⟩)) ∧
    ∀ (d : LyricsData) (ol : Option (List Nat)) (payload : LyricsPayload),
      d.data = some payload → payload.alignedWords.getD [] = [] →
      parse_lyrics_timing (some d) ol = [] := by
  constructor
  · intro ld ol hld hol
    have hnf : parse_lyrics_timing ld (some ol) = noDataFallback (some ol) := by
      rcases hld with rfl | ⟨d, rfl, hd⟩
      · rfl
      · obtain ⟨data, msg⟩ := d
        dsimp only at hd
        subst hd
        rfl
    rw [hnf]
    simp only [noDataFallback, if_neg hol]
  · intro d ol payload hd ha
    obtain ⟨data, msg⟩ := d
    dsimp only at hd
    subst hd
    simp only [parse_lyrics_timing, if_pos ha]

/-- Witness for C4: Scenario B's input on the first conjunct, an empty
`alignedWords` list with lyrics supplied on the second. -/
theorem errorAsymmetry_witness :
    parse_lyrics_timing (some ⟨none, some (strC "insufficient credits")⟩)
        (some (strC "Verse\nHello world\nGoodbye now")) =
      [⟨0, 3, strC "Hello world"⟩, ⟨3, 6, strC "Goodbye now"⟩] ∧
    parse_lyrics_timing (some ⟨some ⟨some [], none⟩, none⟩)
        (some (strC "Hello world\nGoodbye now")) = [] :=
  ⟨(errorAsymmetry.1 _ _ (Or.inr ⟨_, rfl, rfl⟩) (by decide)).trans (by decide),
   errorAsymmetry.2 _ _ _ rfl rfl⟩

/-- C5 counterexample: on `lowConfClean` (6 tokens) and `lowConfLines`
(2 lines), line 1 fails the acceptance test with the cursor at 2, so 4 tokens
remain for 1 remaining line; the claim's remaining-over-remaining quota would
assign it tokens `[2, 3, 4, 5]`, but the code's total-over-total quota
(`6 // 2 = 3`) assigns `[2, 3, 4]`. -/
theorem fallbackDistribution_cex :
    (scanLine lowConfClean (pySplit (pyLower (strC "pp qq"))) 2).1 = [] ∧
    (alignCore lowConfClean 2 lowConfLines 0 0 none).map
        (fun e => e.1.map Prod.fst) = [[0, 1], [2, 3, 4]] ∧
    (alignCore lowConfClean 2 lowConfLines 0 0 none).map
        (fun e => e.1.map Prod.fst) ≠ [[0, 1], [2, 3, 4, 5]] :=
  ⟨by decide, by decide, by decide⟩

/-- C5 amended: when a line fails the acceptance test
(matched-count < 0.3 × target-word count), its share is
`max(1, total_tokens // total_lines)`, plus one when `line_idx` is below
`total_tokens % total_lines` — computed from the TOTAL token and line counts,
not the remaining ones — clipped to the tokens actually available; the cursor
advances by the unclipped share even when fewer tokens were assigned. -/
theorem fallbackDistribution_amended (clean : List Token)
    (total li cursor : Nat) (line : List Nat) (pe : Option ℚ)
    (h : (scanLine clean (pySplit (pyLower line)) cursor).1.length * 10 <
      (pySplit (pyLower line)).length * 3) :
    (lineStep clean total li cursor line pe).2.2 =
      cursor + (max 1 (clean.length / total) +
        if li < clean.length % total then 1 else 0) ∧
    (lineStep clean total li cursor line pe).1 =
      (List.range' cursor (max 1 (clean.length / total) +
        if li < clean.length % total then 1 else 0)).zip
        ((clean.drop cursor).take (max 1 (clean.length / total) +
          if li < clean.length % total then 1 else 0)) ∧
    (lineStep clean total li cursor line pe).1.length =
      min (max 1 (clean.length / total) +
        if li < clean.length % total then 1 else 0)
        (clean.length - cursor) := by
  simp only [lineStep, if_pos h]
  refine ⟨trivial, trivial, ?_⟩
  rw [List.length_zip, List.length_range', List.length_take, List.length_drop]
  omega

/-- Witness for C5's amended theorem at the low-confidence line of the
counterexample input: the cursor lands on `2 + 3 = 5`. -/
theorem fallbackDistribution_witness :
    (lineStep lowConfClean 2 1 2 (strC "pp qq") (some 2)).2.2 = 5 :=
  (fallbackDistribution_amended lowConfClean 2 1 2 (strC "pp qq") (some 2)
    (by decide)).1.trans (by decide)

/-- C6 counterexample: on Scenario A's input the first emitted segment is NOT
`(0, 1.0, "Hello world")` — its raw duration 1.0s is below the 2-second
minimum too, so it is also padded. -/
theorem scenarioA_cex : parse_lyrics_timing scenAInput scenAOl ≠
    [⟨0, 1, strC "Hello world"⟩, ⟨1, 3, strC "Goodbye now"⟩] := by decide

/-- C6 amended: Scenario A returns
`[(0, 2.0, "Hello world"), (1.0, 3.0, "Goodbye now")]` — BOTH segments are
padded to the 2-second minimum, since each raw duration is 1.0s. -/
theorem scenarioA_amended : parse_lyrics_timing scenAInput scenAOl =
    [⟨0, 2, strC "Hello world"⟩, ⟨1, 3, strC "Goodbye now"⟩] := by decide

/-- C10: the word filter's recognition gate only fires on an explicit
`success: false`; a missing `success` field is treated exactly like
`success: true`, so the record participates in alignment. -/
theorem successDefault :
    (∀ w : AlignedWord, w.success ≠ some false →
      cleanWord w = cleanWord { w with success := some true }) ∧
    ∀ w : AlignedWord, w.success = some false → cleanWord w = none := by
  constructor
  · intro w hw
    obtain ⟨word, st, en, suc⟩ := w
    match suc with
    | none => rfl
    | some true => rfl
    | some false => exact absurd rfl hw
  · intro w hw
    obtain ⟨word, st, en, suc⟩ := w
    dsimp only at hw
    subst hw
    rfl

/-- Witness for C10 at a concrete record. -/
theorem successDefault_witness :
    cleanWord ⟨some (strC "la"), some 0, some 1, none⟩ =
      cleanWord ⟨some (strC "la"), some 0, some 1, some true⟩ ∧
    cleanWord ⟨some (strC "la"), some 0, some 1, some false⟩ = none :=
  ⟨successDefault.1 _ (by decide), successDefault.2 _ rfl⟩

/-- C7 counterexample: a truthy non-string argument (the integer 1) makes the
normalizer raise `AttributeError` (`1 .encode` does not exist, and the
`except (UnicodeEncodeError, UnicodeDecodeError)` clause does not catch it),
so "never raises an exception, for any input including ... non-string-typed
fields" fails. -/
theorem neverRaises_cex :
    fixDoubleUtf8Dyn (PyVal.pyint 1) = Except.error PyExc.attributeError := rfl

/-- C7 amended: `parse_lyrics_timing` never raises (its whole body sits in a
blanket `except` returning `[]`, and every operation of this embedding is
total), and the encoding normalizer returns normally exactly on falsy or
string arguments; on a truthy non-string argument it raises
`AttributeError`. -/
theorem neverRaises_amended :
    ∀ v : PyVal, (∃ r, fixDoubleUtf8Dyn v = Except.ok r) ↔
      (PyVal.truthy v = false ∨ ∃ s, v = PyVal.pystr s) := by
  intro v
  match v with
  | .pynone => exact ⟨fun _ => Or.inl rfl, fun _ => ⟨_, rfl⟩⟩
  | .pystr s => exact ⟨fun _ => Or.inr ⟨s, rfl⟩, fun _ => ⟨_, rfl⟩⟩
  | .pyint n =>
    by_cases hn : n = 0
    · subst hn
      exact ⟨fun _ => Or.inl rfl, fun _ => ⟨_, rfl⟩⟩
    · constructor
      · rintro ⟨r, hr⟩
        simp only [fixDoubleUtf8Dyn, if_neg hn] at hr
        cases hr
      · rintro (ht | ⟨s, hs⟩)
        · simp only [PyVal.truthy, decide_eq_false_iff_not, not_not] at ht
          exact absurd ht hn
        · cases hs

/-- Every all-ASCII byte string UTF-8-decodes to itself. -/
theorem utf8Decode_ascii : ∀ s : List Nat, (∀ c ∈ s, c < 0x80) →
    utf8Decode s = some s := by
  intro s
  induction s with
  | nil => intro _; rfl
  | cons b rest ih =>
    intro h
    have hb : b ≤ 0x7F := by
      have := h b (List.mem_cons_self ..)
      omega
    rw [utf8Decode.eq_def]
    simp only [if_pos hb, ih (fun c hc => h c (List.mem_cons_of_mem _ hc))]
    rfl

/-- The normalizer fixes every all-ASCII string: latin-1 encoding then UTF-8
decoding both succeed and give back the input. -/
theorem fix_ascii (s : List Nat) (h : ∀ c ∈ s, c < 0x80) :
    fix_double_utf8_encoding s = s := by
  by_cases hs : s = []
  · subst hs; rfl
  · have hl : latin1Encode s = some s := by
      rw [latin1Encode, if_pos]
      simp only [List.all_eq_true, decide_eq_true_eq]
      intro c hc
      have := h c hc
      omega
    simp only [fix_double_utf8_encoding, if_neg hs, hl, utf8Decode_ascii s h]

/-- C9 counterexample: the doubly-mis-encoded string with code points
`[0xC3, 0x83, 0xC2, 0xA9]` (the mojibake of the mojibake of `é`) normalizes
to `[0xC3, 0xA9]`, which normalizes further to `[0xE9]`, so one application
is not a fixpoint. -/
theorem normalizeIdem_cex :
    fix_double_utf8_encoding
        (fix_double_utf8_encoding [0xC3, 0x83, 0xC2, 0xA9]) ≠
      fix_double_utf8_encoding [0xC3, 0x83, 0xC2, 0xA9] := by decide

/-- C9 amended: the normalizer is idempotent on all-ASCII strings (where it
is the identity); it is not idempotent in general, since each application
strips one level of mis-encoding. -/
theorem normalizeIdem_amended (s : List Nat) (h : ∀ c ∈ s, c < 0x80) :
    fix_double_utf8_encoding (fix_double_utf8_encoding s) =
      fix_double_utf8_encoding s := by
  rw [fix_ascii s h, fix_ascii s h]

/-- Witness for C9's amended theorem on an ASCII string. -/
theorem normalizeIdem_witness :
    fix_double_utf8_encoding (fix_double_utf8_encoding (strC "hi")) =
      fix_double_utf8_encoding (strC "hi") :=
  normalizeIdem_amended (strC "hi") (by decide)

/-! ## Helper lemmas about `pySplit` / `pyJoin` -/

theorem splitAux_good : ∀ (s acc : List Nat),
    (∀ c ∈ acc, pyIsSpace c = false) →
    ∀ w ∈ splitAux s acc, w ≠ [] ∧ ∀ c ∈ w, pyIsSpace c = false := by
  intro s
  induction s with
  | nil =>
    intro acc hacc w hw
    simp only [splitAux] at hw
    split at hw
    · cases hw
    · next hne =>
      simp only [List.mem_singleton] at hw
      subst hw
      refine ⟨by simpa using hne, ?_⟩
      intro c hc
      exact hacc c (List.mem_reverse.mp hc)
  | cons c rest ih =>
    intro acc hacc w hw
    simp only [splitAux] at hw
    split at hw
    · split at hw
      · exact ih [] (by intro d hd; cases hd) w hw
      · next hne =>
        rcases List.mem_cons.mp hw with rfl | hw
        · refine ⟨by simpa using hne, ?_⟩
          intro d hd
          exact hacc d (List.mem_reverse.mp hd)
        · exact ih [] (by intro d hd; cases hd) w hw
    · next hsp =>
      refine ih (c :: acc) ?_ w hw
      intro d hd
      rcases List.mem_cons.mp hd with rfl | hd
      · simpa using hsp
      · exact hacc d hd

theorem pySplit_good (s : List Nat) :
    ∀ w ∈ pySplit s, w ≠ [] ∧ ∀ c ∈ w, pyIsSpace c = false :=
  splitAux_good s [] (by intro c hc; cases hc)

theorem splitAux_word : ∀ (w : List Nat), (∀ c ∈ w, pyIsSpace c = false) →
    ∀ (rest acc : List Nat),
    splitAux (w ++ rest) acc = splitAux rest (w.reverse ++ acc) := by
  intro w
  induction w with
  | nil => intro _ rest acc; simp
  | cons c w' ih =>
    intro h rest acc
    have hc : pyIsSpace c = false := h c (List.mem_cons_self ..)
    show splitAux (c :: (w' ++ rest)) acc = _
    rw [splitAux.eq_def]
    simp only [hc, Bool.false_eq_true, if_false]
    rw [ih (fun d hd => h d (List.mem_cons_of_mem _ hd)) rest (c :: acc)]
    simp [List.append_assoc]

theorem pyJoin_ne_nil (ws : List (List Nat)) (hne : ws ≠ [])
    (h : ∀ w ∈ ws, w ≠ []) : pyJoin ws ≠ [] := by
  match ws with
  | [] => exact absurd rfl hne
  | [w] => exact h w (List.mem_singleton.mpr rfl)
  | w :: v :: t =>
    show w ++ 32 :: pyJoin (v :: t) ≠ []
    intro hj
    rcases List.append_eq_nil.mp hj with ⟨-, h2⟩
    cases h2

theorem pySplit_pyJoin : ∀ ws : List (List Nat),
    (∀ w ∈ ws, w ≠ [] ∧ ∀ c ∈ w, pyIsSpace c = false) →
    pySplit (pyJoin ws) = ws := by
  intro ws
  induction ws with
  | nil => intro _; rfl
  | cons w ws ih =>
    intro h
    have hw := h w (List.mem_cons_self ..)
    cases ws with
    | nil =>
      show splitAux (pyJoin [w]) [] = [w]
      rw [pyJoin]
      have hsp := splitAux_word w hw.2 [] []
      rw [List.append_nil] at hsp
      rw [hsp, splitAux, List.append_nil, if_neg, List.reverse_reverse]
      simpa using hw.1
    | cons v vs =>
      show splitAux (w ++ 32 :: pyJoin (v :: vs)) [] = w :: v :: vs
      rw [splitAux_word w hw.2 (32 :: pyJoin (v :: vs)) []]
      rw [List.append_nil, splitAux.eq_def]
      simp only [show pyIsSpace 32 = true from rfl, if_true]
      rw [if_neg (by simpa using hw.1), List.reverse_reverse]
      congr 1
      exact ih (fun u hu => h u (List.mem_cons_of_mem _ hu))

/-- The branch shape `[line1]` / `[line1, line2]` of the wrapper always
splits back to the full word list, for any split point. -/
theorem wrap_parts_join (words : List (List Nat)) (b : Nat)
    (hgood : ∀ w ∈ words, w ≠ [] ∧ ∀ c ∈ w, pyIsSpace c = false) :
    ((if pyJoin (words.drop b) = [] then [pyJoin (words.take b)]
        else [pyJoin (words.take b), pyJoin (words.drop b)]).map
      pySplit).flatten = words := by
  have htake : ∀ w ∈ words.take b, w ≠ [] ∧ ∀ c ∈ w, pyIsSpace c = false :=
    fun w hw => hgood w (List.mem_of_mem_take hw)
  have hdrop : ∀ w ∈ words.drop b, w ≠ [] ∧ ∀ c ∈ w, pyIsSpace c = false :=
    fun w hw => hgood w (List.mem_of_mem_drop hw)
  split
  · next hnil =>
    have hde : words.drop b = [] := by
      by_contra hne
      exact pyJoin_ne_nil _ hne (fun w hw => (hdrop w hw).1) hnil
    simp only [List.map_cons, List.map_nil, List.flatten_cons,
      List.flatten_nil, List.append_nil]
    rw [pySplit_pyJoin _ htake]
    have := List.take_append_drop b words
    rw [hde, List.append_nil] at this
    exact this
  · simp only [List.map_cons, List.map_nil, List.flatten_cons,
      List.flatten_nil, List.append_nil]
    rw [pySplit_pyJoin _ htake, pySplit_pyJoin _ hdrop]
    exact List.take_append_drop b words

/-- C8 counterexample: a single word longer than `max_chars` IS broken
mid-word (`wrap("abcdef", 3) = ["abc", "def"]`), so the returned lines do not
partition the whitespace-delimited words and their space-joined concatenation
does not reconstruct the original word sequence. -/
theorem wrapRoundTrip_cex :
    wrap_text_intelligently (strC "abcdef") 3 = [strC "abc", strC "def"] ∧
    ((wrap_text_intelligently (strC "abcdef") 3).map pySplit).flatten ≠
      pySplit (strC "abcdef") :=
  ⟨by decide, by decide⟩

/-- C8 amended: `wrap` returns `[text]` when `len(text) <= max_chars` and
never more than two lines; when the text has at least TWO whitespace-delimited
words, the returned lines partition those words in order without breaking any,
so their word sequences concatenate back to the original word sequence; a
single overlong word, however, is cut at `max_chars`. -/
theorem wrapRoundTrip_amended (text : List Nat) (maxChars : Nat) :
    (wrap_text_intelligently text maxChars).length ≤ 2 ∧
    (text.length ≤ maxChars → wrap_text_intelligently text maxChars = [text]) ∧
    ((pySplit text).length ≤ 1 → maxChars < text.length →
      wrap_text_intelligently text maxChars =
        [text.take maxChars, text.drop maxChars]) ∧
    (2 ≤ (pySplit text).length →
      ((wrap_text_intelligently text maxChars).map pySplit).flatten =
        pySplit text) := by
  refine ⟨?_, ?_, ?_, ?_⟩
  · simp only [wrap_text_intelligently]
    repeat' split
    all_goals simp
  · intro h
    simp only [wrap_text_intelligently, if_pos h]
  · intro h1 h2
    simp only [wrap_text_intelligently]
    rw [if_neg (by omega), if_pos h1]
  · intro h2
    by_cases hlen : text.length ≤ maxChars
    · simp only [wrap_text_intelligently, if_pos hlen, List.map_cons,
        List.map_nil, List.flatten_cons, List.flatten_nil, List.append_nil]
    · simp only [wrap_text_intelligently, if_neg hlen]
      rw [if_neg (by omega)]
      exact wrap_parts_join _ _ (pySplit_good text)

/-- Witness for C8's amended theorem on a two-word text. -/
theorem wrapRoundTrip_witness :
    2 ≤ (pySplit (strC "hello world")).length ∧
    ((wrap_text_intelligently (strC "hello world") 3).map pySplit).flatten =
      pySplit (strC "hello world") :=
  ⟨by decide, (wrapRoundTrip_amended (strC "hello world") 3).2.2.2 (by decide)⟩

end MusicGen
